import Mathlib

/-!
Shallow embedding of the pixel-transform core of the
`generated-resource-packs-rs` repository.

Sources embedded here:
 - `src/k_means.rs` : `dist_sq`, `closest`, `calculate_centroid`, `k_means`.
 - `src/main.rs`    : `rgb_to_hsv`, `hsv_to_rgb`, the `saturation` and
   `8bit` pack closures.

Modelling conventions:
 - `u8` channel values are `Nat`; casts `as u8` are made explicit with
   `% 256` or a saturating conversion where the source performs one.
 - `u32` accumulation wraps per addition (`% 2^32`), as Rust release
   builds do.
 - `f64` distance arithmetic in `k_means.rs` only ever produces integers
   of magnitude below `2^53`; every such value and comparison is exact in
   `f64`, so distances are embedded as `Int`.
 - `f32` color-space arithmetic in `main.rs` is embedded over `ℚ`
   (exact-rational arithmetic).  Rust `%` on floats is remainder with the
   sign of the dividend, embedded as `frem` below.  The concrete
   evaluations proved about this embedding use only inputs whose whole
   computation (small integers, divisions with exact results) is exactly
   representable in `f32`, where the rational model and `f32` agree.
 - A Rust index expression that can go out of bounds is embedded with an
   `Option`, `none` modelling the resulting panic.
-/

/-- A color, `Rgb<u8>` in the source; channels are `u8` values. -/
structure Rgb where
  r : ℕ
  g : ℕ
  b : ℕ
  deriving DecidableEq, Repr

/-- `dist_sq` from `k_means.rs`: squared Euclidean distance between two
colors.  The source computes in `f64`, but all values are integers below
`3 * 255^2`, hence exact. -/
def dist_sq (p1 p2 : Rgb) : ℤ :=
  ((p1.r : ℤ) - (p2.r : ℤ)) ^ 2
    + ((p1.g : ℤ) - (p2.g : ℤ)) ^ 2
    + ((p1.b : ℤ) - (p2.b : ℤ)) ^ 2

/-- The scan loop of `closest`: walks the palette with the running index
`i`, best distance `md` and best index `mi`; strict `<` so the first
minimum wins. -/
def closestLoop (p1 : Rgb) : List Rgb → ℕ → ℤ → ℕ → ℤ × ℕ
  | [], _, md, mi => (md, mi)
  | p2 :: rest, i, md, mi =>
    let d := dist_sq p1 p2
    if d < md then closestLoop p1 rest (i + 1) d i
    else closestLoop p1 rest (i + 1) md mi

/-- `closest` from `k_means.rs`.  The running minimum starts at the
literal `100000.0` of the source (NOT at infinity), and the final
`points[min_i]` lookup is embedded with `getElem?` (`none` = panic on an
empty palette). -/
def closest (p1 : Rgb) (points : List Rgb) : Option Rgb :=
  points[(closestLoop p1 points 0 100000 0).2]?

/-- `rand::random_bool(p)` draws `true` with probability `p`; embedded
against an explicit uniform sample `u ∈ [0,1)`. -/
def random_bool (p u : ℚ) : Bool := decide (u < p)

/-- `calculate_centroid` from `k_means.rs`.  `u` is the uniform sample
behind `random_bool(0.25)` and `fresh` the color behind `rand_point()`;
both are consumed only on an empty input.  Channel sums wrap per `u32`
addition; `points.len() as u32` is `% 2^32`; the final `as u8` casts are
`% 256`.  (Rust would panic on the `/ 0` arising when `len % 2^32 = 0`
with a non-empty list; no claim touches that case.) -/
def calculate_centroid (u : ℚ) (fresh : Rgb) (points : List Rgb) : Option Rgb :=
  if points.isEmpty then
    if random_bool (1/4) u then some fresh else none
  else
    let r := points.foldl (fun acc p => (acc + p.r) % 2 ^ 32) 0
    let g := points.foldl (fun acc p => (acc + p.g) % 2 ^ 32) 0
    let b := points.foldl (fun acc p => (acc + p.b) % 2 ^ 32) 0
    let n := points.length % 2 ^ 32
    some ⟨r / n % 256, g / n % 256, b / n % 256⟩

/-- The process-wide random source, made explicit: `pts i` is the `i`-th
`rand_point()` draw and `us i` the uniform sample behind the `i`-th
`random_bool` draw. -/
structure Oracle where
  pts : ℕ → Rgb
  us : ℕ → ℚ

/-- The inner scan of the assignment step of `k_means`: minimum over
`centroids.iter().enumerate().skip(1)` with running best `(md, ci)`. -/
def assignLoop (p : Rgb) : List Rgb → ℕ → ℤ → ℕ → ℕ
  | [], _, _, ci => ci
  | c :: cs, j, md, ci =>
    let d := dist_sq p c
    if d < md then assignLoop p cs (j + 1) d j
    else assignLoop p cs (j + 1) md ci

/-- One point's assignment in `k_means`: the scan starts from
`dist_sq(point, centroids[0])`, which panics (`none`) when the centroid
list is empty. -/
def assign_point (centroids : List Rgb) (p : Rgb) : Option ℕ :=
  match centroids with
  | [] => none
  | c0 :: rest => some (assignLoop p rest 1 (dist_sq p c0) 0)

/-- `clusters[closest_index].push(*point)`, with the bounds check made
explicit. -/
def push_cluster (clusters : List (List Rgb)) (i : ℕ) (p : Rgb) :
    Option (List (List Rgb)) :=
  if i < clusters.length then some (clusters.set i (clusters.getD i [] ++ [p]))
  else none

/-- The assignment phase of one `k_means` iteration: `k` empty buckets,
each point pushed onto the bucket of its closest centroid. -/
def build_clusters (k : ℕ) (centroids points : List Rgb) :
    Option (List (List Rgb)) :=
  points.foldlM
    (fun cl p => (assign_point centroids p).bind fun i => push_cluster cl i p)
    (List.replicate k [])

/-- The centroid-recomputation phase of one `k_means` iteration:
`calculate_centroid` on each bucket in order, keeping only the `Some`
results; the oracle counters advance exactly when a random draw is
consumed (one coin per empty bucket, one fresh point per successful
coin). -/
def recompute (o : Oracle) : List (List Rgb) → ℕ → ℕ → List Rgb × ℕ × ℕ
  | [], pi, ui => ([], pi, ui)
  | c :: cs, pi, ui =>
    let res := calculate_centroid (o.us ui) (o.pts pi) c
    let pi' := if c.isEmpty && random_bool (1/4) (o.us ui) then pi + 1 else pi
    let ui' := if c.isEmpty then ui + 1 else ui
    let rest := recompute o cs pi' ui'
    ((match res with | some x => [x] | none => []) ++ rest.1, rest.2)

/-- Outcome of a `k_means` run: a normal return, a panic, or fuel
exhaustion (the source's `while` loop still running). -/
inductive KOut where
  | ok : List Rgb → KOut
  | panicked : KOut
  | outOfFuel : KOut
  deriving DecidableEq, Repr

/-- The `while !converged` loop of `k_means`, with explicit fuel. -/
def k_means_loop (o : Oracle) (k : ℕ) (points : List Rgb) :
    ℕ → List Rgb → ℕ → ℕ → KOut
  | 0, _, _, _ => .outOfFuel
  | fuel + 1, centroids, pi, ui =>
    match build_clusters k centroids points with
    | none => .panicked
    | some clusters =>
      let nxt := recompute o clusters pi ui
      if nxt.1 = centroids then .ok centroids
      else k_means_loop o k points fuel nxt.1 nxt.2.1 nxt.2.2

/-- `k_means` from `k_means.rs`: `k` random initial centroids, then the
convergence loop. -/
def k_means (o : Oracle) (k : ℕ) (points : List Rgb) (fuel : ℕ) : KOut :=
  k_means_loop o k points fuel ((List.range k).map o.pts) k 0

/-- Truncation toward zero, as Rust float-to-int conversion and float
remainder use. -/
def qtrunc (q : ℚ) : ℤ := if 0 ≤ q then ⌊q⌋ else ⌈q⌉

/-- Rust `%` on floats: remainder with the sign of the dividend,
`x - y * trunc (x / y)`. -/
def frem (x y : ℚ) : ℚ := x - y * (qtrunc (x / y) : ℚ)

/-- An HSV triple, the `[f32; 3]` of the source. -/
structure Hsv where
  h : ℚ
  s : ℚ
  v : ℚ
  deriving DecidableEq, Repr

/-- `rgb_to_hsv` from `main.rs` over exact rationals.  The source's
final `else => unreachable` arm is embedded as a junk value `0`; it is
indeed unreachable since the maximum equals one of the three channels. -/
def rgb_to_hsv (r g b : ℕ) : Hsv :=
  let rp : ℚ := (r : ℚ) / 255
  let gp : ℚ := (g : ℚ) / 255
  let bp : ℚ := (b : ℚ) / 255
  let c_max := max (max rp gp) bp
  let c_min := min (min rp gp) bp
  let delta := c_max - c_min
  let h :=
    if delta = 0 then 0
    else if c_max = rp then 60 * frem ((gp - bp) / delta) 6
    else if c_max = gp then 60 * ((bp - rp) / delta + 2)
    else if c_max = bp then 60 * ((rp - gp) / delta + 4)
    else 0
  let s := if c_max = 0 then 0 else delta / c_max
  ⟨h, s, c_max⟩

/-- The local `is_between` helper of `hsv_to_rgb`: `min <= value && value < max`. -/
def is_between (value mn mx : ℚ) : Bool := decide (mn ≤ value ∧ value < mx)

/-- Rust `as u8` on an `f32`: saturating conversion with truncation
toward zero. -/
def f32_to_u8 (q : ℚ) : ℕ :=
  if q ≤ 0 then 0 else if 255 ≤ q then 255 else ⌊q⌋.toNat

/-- `hsv_to_rgb` from `main.rs` over exact rationals. -/
def hsv_to_rgb (hin s v : ℚ) : Rgb :=
  let c := v * s
  let h := hin / 60
  let x := c * (1 - |frem h 2 - 1|)
  let m := v - c
  let rgb : ℚ × ℚ × ℚ :=
    if is_between h 0 1 then (c, x, 0)
    else if is_between h 1 2 then (x, c, 0)
    else if is_between h 2 3 then (0, c, x)
    else if is_between h 3 4 then (0, x, c)
    else if is_between h 4 5 then (x, 0, c)
    else (c, 0, x)
  ⟨f32_to_u8 ((rgb.1 + m) * 255),
   f32_to_u8 ((rgb.2.1 + m) * 255),
   f32_to_u8 ((rgb.2.2 + m) * 255)⟩

/-- The final (fallthrough) arm of `hsv_to_rgb`'s sector chain, as a
standalone formula: `(r,g,b) = (c, 0, x)` shifted by `m`. -/
def hsv_fallback (hin s v : ℚ) : Rgb :=
  let c := v * s
  let h := hin / 60
  let x := c * (1 - |frem h 2 - 1|)
  let m := v - c
  ⟨f32_to_u8 ((c + m) * 255), f32_to_u8 ((0 + m) * 255), f32_to_u8 ((x + m) * 255)⟩

/-- `hsv_to_rgb ∘ rgb_to_hsv`, the round trip of the spec. -/
def hsv_roundtrip (r g b : ℕ) : Rgb :=
  let hsv := rgb_to_hsv r g b
  hsv_to_rgb hsv.h hsv.s hsv.v

/-- A pixel with alpha, `Rgba<u8>` in the source. -/
structure Rgba where
  r : ℕ
  g : ℕ
  b : ℕ
  a : ℕ
  deriving DecidableEq, Repr

/-- A decoded raster: width, height, and row-major pixel list. -/
structure Img (α : Type) where
  width : ℕ
  height : ℕ
  pixels : List α
  deriving DecidableEq, Repr

/-- The `DynamicImage` variants relevant to the filter closures: a
3-channel and a 4-channel 8-bit image. -/
inductive DynImage where
  | rgb8 : Img Rgb → DynImage
  | rgba8 : Img Rgba → DynImage
  deriving DecidableEq, Repr

/-- The channel layout of a `DynImage`. -/
inductive Layout where
  | rgb8
  | rgba8
  deriving DecidableEq, Repr

def DynImage.layout : DynImage → Layout
  | .rgb8 _ => .rgb8
  | .rgba8 _ => .rgba8

def DynImage.width : DynImage → ℕ
  | .rgb8 im => im.width
  | .rgba8 im => im.width

def DynImage.height : DynImage → ℕ
  | .rgb8 im => im.height
  | .rgba8 im => im.height

/-- `DynamicImage::into_rgba8`: an RGB image gains an opaque alpha
channel; an RGBA image is returned unchanged. -/
def into_rgba8 : DynImage → Img Rgba
  | .rgb8 im => ⟨im.width, im.height, im.pixels.map fun p => ⟨p.r, p.g, p.b, 255⟩⟩
  | .rgba8 im => im

/-- The per-pixel loop of the filter closures, which visits every (x,y)
and rewrites the pixel in place. -/
def mapPixels (f : Rgba → Rgba) (im : Img Rgba) : Img Rgba :=
  ⟨im.width, im.height, im.pixels.map f⟩

/-- The per-pixel body of the `8bit` pack closure: channels truncated to
multiples of 32 (red, green) and 64 (blue); alpha untouched. -/
def posterize_px (p : Rgba) : Rgba :=
  ⟨p.r / 32 * 32, p.g / 32 * 32, p.b / 64 * 64, p.a⟩

/-- The `8bit` pack closure from `main.rs`: convert to RGBA8, posterize
every pixel, return the RGBA8 result. -/
def eightbit_filter (img : DynImage) : DynImage :=
  .rgba8 (mapPixels posterize_px (into_rgba8 img))

/-- The per-pixel body of the `saturation` pack closure: to HSV, double
and clamp the saturation, back to RGB; alpha untouched. -/
def saturate_px (p : Rgba) : Rgba :=
  let hsv := rgb_to_hsv p.r p.g p.b
  let rgb := hsv_to_rgb hsv.h (min (hsv.s * 2) 1) hsv.v
  ⟨rgb.r, rgb.g, rgb.b, p.a⟩

/-- The `saturation` pack closure from `main.rs`. -/
def saturation_filter (img : DynImage) : DynImage :=
  .rgba8 (mapPixels saturate_px (into_rgba8 img))

/-- A concrete random source (never actually consumed by the claims that
use it). -/
def oracle0 : Oracle := ⟨fun _ => ⟨0, 0, 0⟩, fun _ => 0⟩

/-! ## Helper lemmas -/

/-- Wrapping `u32` accumulation agrees with the exact sum as long as the
exact total stays below `2^32`. -/
theorem foldl_wrap_eq_sum (f : Rgb → ℕ) :
    ∀ (l : List Rgb) (acc : ℕ), acc + (l.map f).sum < 2 ^ 32 →
      l.foldl (fun a p => (a + f p) % 2 ^ 32) acc = acc + (l.map f).sum := by
  intro l
  induction l with
  | nil => intro acc h; simp
  | cons p ps ih =>
    intro acc h
    simp only [List.foldl_cons, List.map_cons, List.sum_cons] at h ⊢
    have h1 : acc + f p < 2 ^ 32 := by omega
    rw [Nat.mod_eq_of_lt h1, ih (acc + f p) (by omega)]
    omega

/-- The index returned by the scan loop of `closest` is either the
incoming one or the position of some visited element. -/
theorem closestLoop_snd (p : Rgb) :
    ∀ (l : List Rgb) (i : ℕ) (d : ℤ) (mi : ℕ),
      (closestLoop p l i d mi).2 = mi ∨
        (i ≤ (closestLoop p l i d mi).2 ∧
          (closestLoop p l i d mi).2 < i + l.length) := by
  intro l
  induction l with
  | nil => intro i d mi; exact Or.inl rfl
  | cons c cs ih =>
    intro i d mi
    simp only [closestLoop, List.length_cons]
    by_cases hd : dist_sq p c < d
    · rw [if_pos hd]
      rcases ih (i + 1) (dist_sq p c) i with h | ⟨h1, h2⟩
      · right
        rw [h]
        omega
      · right
        omega
    · rw [if_neg hd]
      rcases ih (i + 1) d mi with h | ⟨h1, h2⟩
      · exact Or.inl h
      · right
        omega

/-! ## Claim theorems -/

/-- Claim C1 (evaluation at the failing input): `closest` does NOT
return the minimum-distance palette member.  With `p = (0,0,0)` and
palette `[(255,255,255), (200,200,200)]`, both squared distances
(195075 and 120000) exceed the `100000.0` the running minimum is
initialised to, so the scan never updates and index 0 is returned even
though index 1 is strictly closer. -/
theorem closest_sentinel_miss :
    closest ⟨0, 0, 0⟩ [⟨255, 255, 255⟩, ⟨200, 200, 200⟩] = some ⟨255, 255, 255⟩ ∧
      dist_sq ⟨0, 0, 0⟩ ⟨200, 200, 200⟩ < dist_sq ⟨0, 0, 0⟩ ⟨255, 255, 255⟩ := by
  decide

/-- Claim C2 (evaluation at the failing input): `rgb_to_hsv` does NOT
always produce a hue in `[0,360)`.  On the 8-bit input `(255,0,255)`
(whole computation exact in `f32`) the red-max branch computes
`60 * ((0 - 1) % 6) = -60`, because Rust float `%` keeps the dividend's
sign. -/
theorem rgb_to_hsv_negative_hue :
    rgb_to_hsv 255 0 255 = ⟨-60, 1, 1⟩ ∧ (rgb_to_hsv 255 0 255).h < 0 := by
  have hc : ⌈(-(1/6) : ℚ)⌉ = 0 := by
    rw [Int.ceil_eq_zero_iff]
    constructor <;> norm_num
  have h1 : rgb_to_hsv 255 0 255 = ⟨-60, 1, 1⟩ := by
    simp only [rgb_to_hsv]
    norm_num [max_def, min_def, frem, qtrunc, hc]
  refine ⟨h1, ?_⟩
  rw [h1]
  norm_num

/-- Claim C3 (evaluation at the failing input): the HSV round trip is
NOT within ±1 per channel for all 8-bit inputs.  `(255,0,255)` maps to
hue `-60`, which falls into `hsv_to_rgb`'s fallthrough arm with
`x = -1`; the blue channel saturates to 0, a deviation of 255. -/
theorem hsv_roundtrip_far_at_magenta :
    hsv_roundtrip 255 0 255 = ⟨255, 0, 0⟩ ∧
      1 < 255 - (hsv_roundtrip 255 0 255).b := by
  have hc6 : ⌈(-(1/6) : ℚ)⌉ = 0 := by
    rw [Int.ceil_eq_zero_iff]
    constructor <;> norm_num
  have hc2 : ⌈(-(1/2) : ℚ)⌉ = 0 := by
    rw [Int.ceil_eq_zero_iff]
    constructor <;> norm_num
  have h1 : rgb_to_hsv 255 0 255 = ⟨-60, 1, 1⟩ := by
    simp only [rgb_to_hsv]
    norm_num [max_def, min_def, frem, qtrunc, hc6]
  have h2 : hsv_roundtrip 255 0 255 = ⟨255, 0, 0⟩ := by
    simp only [hsv_roundtrip, h1]
    simp only [hsv_to_rgb]
    norm_num [is_between, f32_to_u8, frem, qtrunc, hc2]
  refine ⟨h2, ?_⟩
  rw [h2]
  norm_num

/-- Claim C4 (counterexample): `k_means` with `k = 0` raises no
`InvalidArgument` condition.  With an empty point list it returns
normally with an empty palette, and with a non-empty point list it
panics indexing `centroids[0]`. -/
theorem k_means_k0_counterexample :
    k_means oracle0 0 [] 1 = KOut.ok [] ∧
      k_means oracle0 0 [⟨1, 1, 1⟩] 1 = KOut.panicked := by
  constructor <;> rfl

/-- Claim C4 (amended): invoking `k_means` with `k = 0` is an unguarded
precondition violation: for any random source and any fuel, an empty
point list makes it return normally with an empty palette on the first
iteration, and a non-empty point list makes it panic indexing
`centroids[0]`; no error condition is reported. -/
theorem k_means_k0_behaviour (o : Oracle) (p : Rgb) (ps : List Rgb) (fuel : ℕ) :
    k_means o 0 [] (fuel + 1) = KOut.ok [] ∧
      k_means o 0 (p :: ps) (fuel + 1) = KOut.panicked := by
  constructor
  · simp [k_means, k_means_loop, build_clusters, recompute]
  · simp [k_means, k_means_loop, build_clusters, assign_point]

/-- Claim C5: on an empty bucket, `calculate_centroid` consumes one
Bernoulli(0.25) draw (modelled as a uniform sample `u`, succeeding
exactly when `u < 1/4`); on success it returns the freshly drawn random
color, otherwise `none`, and correspondingly the recomputation phase
either respawns the bucket from the fresh draw or drops it from the
centroid list. -/
theorem calculate_centroid_empty_policy (u : ℚ) (fresh : Rgb) :
    calculate_centroid u fresh [] =
        (if random_bool (1/4) u then some fresh else none) ∧
      ((calculate_centroid u fresh []).isSome ↔ u < 1/4) ∧
      ∀ (o : Oracle) (pi ui : ℕ),
        (recompute o [[]] pi ui).1 =
          if random_bool (1/4) (o.us ui) then [o.pts pi] else [] := by
  refine ⟨rfl, ?_, ?_⟩
  · by_cases h : u < 1/4 <;> simp [calculate_centroid, random_bool, h]
  · intro o pi ui
    cases h : random_bool (1/4) (o.us ui) <;>
      simp only [one_div] at h <;>
      simp [recompute, calculate_centroid, h]

/-- Claim C6: on a non-empty point list of 8-bit colors whose length `n`
satisfies `255 * n < 2^32`, `calculate_centroid` returns `some` of the
component-wise integer-truncated mean: each channel is the exact channel
sum (no `u32` wraparound) integer-divided by `n`. -/
theorem calculate_centroid_exact_mean (points : List Rgb) (u : ℚ) (fresh : Rgb)
    (hne : points ≠ [])
    (h8 : ∀ p ∈ points, p.r ≤ 255 ∧ p.g ≤ 255 ∧ p.b ≤ 255)
    (hsz : 255 * points.length < 2 ^ 32) :
    calculate_centroid u fresh points =
      some ⟨(points.map Rgb.r).sum / points.length,
            (points.map Rgb.g).sum / points.length,
            (points.map Rgb.b).sum / points.length⟩ := by
  have hpos : 0 < points.length := List.length_pos.mpr hne
  have hlen : points.length % 2 ^ 32 = points.length :=
    Nat.mod_eq_of_lt (lt_of_le_of_lt (Nat.le_mul_of_pos_left _ (by norm_num)) hsz)
  have chan : ∀ f : Rgb → ℕ, (∀ p ∈ points, f p ≤ 255) →
      points.foldl (fun a p => (a + f p) % 2 ^ 32) 0 / (points.length % 2 ^ 32) % 256
        = (points.map f).sum / points.length := by
    intro f hf
    have hsum : (points.map f).sum ≤ 255 * points.length := by
      have := List.sum_le_card_nsmul (points.map f) 255 (by
        intro x hx
        obtain ⟨p, hp, rfl⟩ := List.mem_map.mp hx
        exact hf p hp)
      simpa [Nat.mul_comm] using this
    have hm : (points.map f).sum / points.length ≤ 255 := by
      calc (points.map f).sum / points.length
          ≤ 255 * points.length / points.length := Nat.div_le_div_right hsum
        _ = 255 := Nat.mul_div_cancel 255 hpos
    rw [foldl_wrap_eq_sum f points 0 (by omega), hlen, Nat.zero_add,
      Nat.mod_eq_of_lt (by omega)]
  obtain ⟨q, qs, rfl⟩ := List.exists_cons_of_ne_nil hne
  simp only [calculate_centroid, List.isEmpty_cons, Bool.false_eq_true, if_false]
  rw [chan Rgb.r (fun p hp => (h8 p hp).1), chan Rgb.g (fun p hp => (h8 p hp).2.1),
    chan Rgb.b (fun p hp => (h8 p hp).2.2)]

/-- Witness for C6 at a concrete input: the mean of `(10,20,30)` and
`(20,40,51)` is `(15,30,40)` (blue truncated from 40.5). -/
theorem calculate_centroid_exact_mean_witness :
    (([⟨10, 20, 30⟩, ⟨20, 40, 51⟩] : List Rgb) ≠ []) ∧
      (∀ p ∈ ([⟨10, 20, 30⟩, ⟨20, 40, 51⟩] : List Rgb),
        p.r ≤ 255 ∧ p.g ≤ 255 ∧ p.b ≤ 255) ∧
      255 * ([⟨10, 20, 30⟩, ⟨20, 40, 51⟩] : List Rgb).length < 2 ^ 32 ∧
      calculate_centroid 0 ⟨0, 0, 0⟩ [⟨10, 20, 30⟩, ⟨20, 40, 51⟩] =
        some ⟨15, 30, 40⟩ :=
  ⟨by decide, by decide, by norm_num,
    (calculate_centroid_exact_mean [⟨10, 20, 30⟩, ⟨20, 40, 51⟩] 0 ⟨0, 0, 0⟩
      (by decide) (by decide) (by norm_num)).trans (by decide)⟩

/-- Claim C7: the `8bit` posterize filter is idempotent — after one pass
every channel already sits on its truncation grid (multiples of 32 for
red and green, 64 for blue; alpha untouched), so a second pass changes
nothing. -/
theorem eightbit_idempotent (img : DynImage) :
    eightbit_filter (eightbit_filter img) = eightbit_filter img := by
  have hpx : ∀ p, posterize_px (posterize_px p) = posterize_px p := by
    intro p
    simp [posterize_px, Nat.mul_div_cancel _ (show 0 < 32 by norm_num),
      Nat.mul_div_cancel _ (show 0 < 64 by norm_num)]
  cases img <;>
    simp [eightbit_filter, into_rgba8, mapPixels, List.map_map,
      Function.comp_def, hpx]

/-- Claim C8 (counterexample): a filter transform does NOT always return
an image with the same channel layout as its input: on a 1-by-1
3-channel (RGB8) image the `8bit` pack closure returns a 4-channel
(RGBA8) image, because the closure starts with `into_rgba8`. -/
theorem eightbit_changes_layout :
    (eightbit_filter (DynImage.rgb8 ⟨1, 1, [⟨0, 0, 0⟩]⟩)).layout ≠
      (DynImage.rgb8 ⟨1, 1, [⟨0, 0, 0⟩]⟩).layout := by
  decide

/-- Claim C8 (amended): the saturate and `8bit` filter transforms return
an image with the same width and height as the input, and always with
RGBA8 channel layout — so the layout matches the input's exactly when
the input is already RGBA8. -/
theorem filters_preserve_dims (img : DynImage) :
    (saturation_filter img).width = img.width ∧
      (saturation_filter img).height = img.height ∧
      (saturation_filter img).layout = Layout.rgba8 ∧
      (eightbit_filter img).width = img.width ∧
      (eightbit_filter img).height = img.height ∧
      (eightbit_filter img).layout = Layout.rgba8 := by
  cases img <;>
    simp [saturation_filter, eightbit_filter, into_rgba8, mapPixels,
      DynImage.width, DynImage.height, DynImage.layout]

/-- Claim C9: for a hue outside `[0,360)` (negative or at least 360),
`hsv_to_rgb` neither rejects nor normalizes: every `is_between` sector
test fails, so it falls through to the final `else` arm and returns the
last-branch formula, `(c, 0, x)` shifted by `m`. -/
theorem hsv_to_rgb_fallthrough (h s v : ℚ) (hout : h < 0 ∨ 360 ≤ h) :
    hsv_to_rgb h s v = hsv_fallback h s v := by
  have h60 : (0 : ℚ) < 60 := by norm_num
  have hcases : h / 60 < 0 ∨ 6 ≤ h / 60 := by
    rcases hout with hn | hb
    · exact Or.inl (div_neg_of_neg_of_pos hn h60)
    · right
      rw [le_div_iff₀ h60]
      linarith
  have hib : ∀ mn mx : ℚ, 0 ≤ mn → mx ≤ 6 → is_between (h / 60) mn mx = false := by
    intro mn mx hmn hmx
    simp only [is_between, decide_eq_false_iff_not, not_and, not_lt]
    intro h1
    rcases hcases with hc | hc
    · linarith
    · linarith
  simp only [hsv_to_rgb, hsv_fallback,
    hib 0 1 (by norm_num) (by norm_num), hib 1 2 (by norm_num) (by norm_num),
    hib 2 3 (by norm_num) (by norm_num), hib 3 4 (by norm_num) (by norm_num),
    hib 4 5 (by norm_num) (by norm_num), Bool.false_eq_true, if_false]

/-- Witness for C9 at the concrete out-of-range hue `-60`. -/
theorem hsv_to_rgb_fallthrough_witness :
    ((-60 : ℚ) < 0 ∨ (360 : ℚ) ≤ -60) ∧
      hsv_to_rgb (-60) 1 1 = hsv_fallback (-60) 1 1 :=
  ⟨Or.inl (by norm_num), hsv_to_rgb_fallthrough (-60) 1 1 (Or.inl (by norm_num))⟩

/-- Claim C10: `closest` on an empty palette panics (the final
`points[min_i]` lookup with `min_i = 0` is out of bounds, `none` in the
embedding); on any non-empty palette the lookup is in bounds and a
palette member is returned. -/
theorem closest_empty_palette :
    (∀ p : Rgb, closest p [] = none) ∧
      ∀ (p : Rgb) (pts : List Rgb), pts ≠ [] → (closest p pts).isSome := by
  constructor
  · intro p
    rfl
  · intro p pts hne
    have hlt : (closestLoop p pts 0 100000 0).2 < pts.length := by
      rcases closestLoop_snd p pts 0 100000 0 with h | ⟨_, h2⟩
      · rw [h]
        exact List.length_pos.mpr hne
      · simpa using h2
    simp [closest, hlt]

/-- Witness for C10: a singleton palette is non-empty and `closest`
returns a value on it. -/
theorem closest_empty_palette_witness :
    (([⟨1, 2, 3⟩] : List Rgb) ≠ []) ∧ (closest ⟨0, 0, 0⟩ [⟨1, 2, 3⟩]).isSome :=
  ⟨by decide, closest_empty_palette.2 ⟨0, 0, 0⟩ [⟨1, 2, 3⟩] (by decide)⟩
